import Mathlib

/-!
Verification of the object-oriented convex-optimization modeling layer
(the OOCO notebook's Edge/Node classes and the modeling core they rely on).

The Edge and Node classes are embedded directly from the notebook source
(src/examples/notebooks/WWW/OOCO.ipynb).  The modeling core they call into
(Expression construction, DCP checking, atom canonicalization, problem
assembly, standard-form building) is not part of the source tree, so those
definitions are modelled from the specification, as marked in their doc
comments.  Python numbers are modelled as rationals; Python object mutation
is modelled by explicit state passing.
-/

namespace CVX

/-- Modelled from the spec: the shape of an Expression is scalar or a
one-dimensional array of a given length. -/
inductive Shape where
  | scalar
  | vec (n : Nat)
  deriving DecidableEq, Repr

/-- Modelled from the spec: curvature tags for DCP checking. -/
inductive Curvature where
  | affine
  | convex
  | concave
  | nonconvex
  deriving DecidableEq, Repr

/-- Modelled from the spec: the error taxonomy of the modeling core. -/
inductive Err where
  | shapeMismatch
  | dcpViolation
  | unsupportedAtom
  | emptyProblem
  deriving DecidableEq, Repr

/-- Modelled from the spec: Expression trees of variables, constants and
atom applications.  Variables carry an identity and a fixed shape; the
only nonlinear atom in scope is absolute value. -/
inductive Expr where
  | var (id : Nat) (sh : Shape)
  | const (q : ℚ)
  | add (a b : Expr)
  | neg (a : Expr)
  | smul (q : ℚ) (a : Expr)
  | absA (a : Expr)
  deriving DecidableEq, Repr

/-- Modelled from the spec: broadcast rule for combining two operand
shapes.  A scalar combines with any shape; equal shapes combine
elementwise; mismatched non-scalar shapes fail with shapeMismatch. -/
def broadcast : Shape → Shape → Except Err Shape
  | Shape.scalar, s => Except.ok s
  | s, Shape.scalar => Except.ok s
  | Shape.vec n, Shape.vec m =>
      if n = m then Except.ok (Shape.vec n) else Except.error Err.shapeMismatch

/-- Modelled from the spec: shape derivation for an Expression, validating
operand shapes at every combination node. -/
def shapeOf : Expr → Except Err Shape
  | Expr.var _ s => Except.ok s
  | Expr.const _ => Except.ok Shape.scalar
  | Expr.add a b =>
      match shapeOf a, shapeOf b with
      | Except.ok sa, Except.ok sb => broadcast sa sb
      | Except.error e, _ => Except.error e
      | _, Except.error e => Except.error e
  | Expr.neg a => shapeOf a
  | Expr.smul _ a => shapeOf a
  | Expr.absA a => shapeOf a

/-- Modelled from the spec: curvature of the sum of two tagged operands
(DCP composition table for addition). -/
def curvAdd : Curvature → Curvature → Curvature
  | Curvature.affine, c => c
  | c, Curvature.affine => c
  | Curvature.convex, Curvature.convex => Curvature.convex
  | Curvature.concave, Curvature.concave => Curvature.concave
  | _, _ => Curvature.nonconvex

/-- Modelled from the spec: curvature of the negation of a tagged operand. -/
def curvNeg : Curvature → Curvature
  | Curvature.affine => Curvature.affine
  | Curvature.convex => Curvature.concave
  | Curvature.concave => Curvature.convex
  | Curvature.nonconvex => Curvature.nonconvex

/-- Modelled from the spec: curvature derivation for an Expression.
Absolute value is a convex non-monotonic atom: applied to an affine
argument it is convex; applied to any other curvature no consistent
curvature can be derived and construction fails with dcpViolation. -/
def curvOf : Expr → Except Err Curvature
  | Expr.var _ _ => Except.ok Curvature.affine
  | Expr.const _ => Except.ok Curvature.affine
  | Expr.add a b =>
      match curvOf a, curvOf b with
      | Except.ok ca, Except.ok cb => Except.ok (curvAdd ca cb)
      | Except.error e, _ => Except.error e
      | _, Except.error e => Except.error e
  | Expr.neg a =>
      match curvOf a with
      | Except.ok ca => Except.ok (curvNeg ca)
      | Except.error e => Except.error e
  | Expr.smul q a =>
      match curvOf a with
      | Except.ok ca =>
          Except.ok (if q < 0 then curvNeg ca else if q = 0 then Curvature.affine else ca)
      | Except.error e => Except.error e
  | Expr.absA a =>
      match curvOf a with
      | Except.ok Curvature.affine => Except.ok Curvature.convex
      | Except.ok _ => Except.error Err.dcpViolation
      | Except.error e => Except.error e

/-- Numeric evaluation of a (scalar) Expression under an assignment of
rational values to variable identities. -/
def evalE (σ : Nat → ℚ) : Expr → ℚ
  | Expr.var i _ => σ i
  | Expr.const q => q
  | Expr.add a b => evalE σ a + evalE σ b
  | Expr.neg a => -evalE σ a
  | Expr.smul q a => q * evalE σ a
  | Expr.absA a => |evalE σ a|

/-- Variable identities occurring in an Expression. -/
def varsOf : Expr → List Nat
  | Expr.var i _ => [i]
  | Expr.const _ => []
  | Expr.add a b => varsOf a ++ varsOf b
  | Expr.neg a => varsOf a
  | Expr.smul _ a => varsOf a
  | Expr.absA a => varsOf a

/-- Modelled from the spec: a Constraint is a typed relation (equality or
inequality) between two expressions. -/
inductive Constr where
  | le (l r : Expr)
  | eq (l r : Expr)
  deriving DecidableEq, Repr

/-- Satisfaction of a Constraint under an assignment. -/
def satC (σ : Nat → ℚ) : Constr → Prop
  | Constr.le l r => evalE σ l ≤ evalE σ r
  | Constr.eq l r => evalE σ l = evalE σ r

instance (σ : Nat → ℚ) (c : Constr) : Decidable (satC σ c) := by
  cases c <;> simp only [satC] <;> infer_instance

/-- Modelled from the spec: eager construction-time validation of an
addition node — operand shapes must broadcast, else shapeMismatch. -/
def mkAdd (a b : Expr) : Except Err Expr :=
  match shapeOf (Expr.add a b) with
  | Except.ok _ => Except.ok (Expr.add a b)
  | Except.error e => Except.error e

/-- Modelled from the spec: eager construction-time validation of an
absolute-value atom application — the shape and curvature derivations of
the new node must both succeed. -/
def mkAbs (a : Expr) : Except Err Expr :=
  match shapeOf (Expr.absA a), curvOf (Expr.absA a) with
  | Except.ok _, Except.ok _ => Except.ok (Expr.absA a)
  | Except.error e, _ => Except.error e
  | _, Except.error e => Except.error e

/-- Modelled from the spec: eager construction-time validation of an
inequality constraint l <= r.  Operand shapes must broadcast (else
shapeMismatch); for the relation to be DCP the left side must be affine
or convex and the right side affine or concave (else dcpViolation). -/
def mkLe (l r : Expr) : Except Err Constr :=
  match shapeOf l, shapeOf r with
  | Except.ok sl, Except.ok sr =>
      match broadcast sl sr with
      | Except.ok _ =>
          match curvOf l, curvOf r with
          | Except.ok cl, Except.ok cr =>
              if (cl = Curvature.affine ∨ cl = Curvature.convex) ∧
                  (cr = Curvature.affine ∨ cr = Curvature.concave) then
                Except.ok (Constr.le l r)
              else Except.error Err.dcpViolation
          | Except.error e, _ => Except.error e
          | _, Except.error e => Except.error e
      | Except.error e => Except.error e
  | Except.error e, _ => Except.error e
  | _, Except.error e => Except.error e

/-- Modelled from the spec: eager construction-time validation of an
equality constraint l == r.  Operand shapes must broadcast and both
operands must be affine. -/
def mkEq (l r : Expr) : Except Err Constr :=
  match shapeOf l, shapeOf r with
  | Except.ok sl, Except.ok sr =>
      match broadcast sl sr with
      | Except.ok _ =>
          match curvOf l, curvOf r with
          | Except.ok cl, Except.ok cr =>
              if cl = Curvature.affine ∧ cr = Curvature.affine then
                Except.ok (Constr.eq l r)
              else Except.error Err.dcpViolation
          | Except.error e, _ => Except.error e
          | _, Except.error e => Except.error e
      | Except.error e => Except.error e
  | Except.error e, _ => Except.error e
  | _, Except.error e => Except.error e

/-- Python runtime values that occur in the notebook code: numbers
(modelled as rationals), library Expressions, booleans, Constraint
objects, and a propagated type error. -/
inductive PyVal where
  | num (q : ℚ)
  | expr (e : Expr)
  | bool (b : Bool)
  | constr (c : Constr)
  | err
  deriving DecidableEq, Repr

/-- Wraps the result of a checked constraint constructor as a Python
value (a raised modeling error is absorbed as the error value). -/
def constrOrErr : Except Err Constr → PyVal
  | Except.ok c => PyVal.constr c
  | Except.error _ => PyVal.err

/-- Python addition as dispatched between numbers and library
Expressions; a number operand is cast to a constant Expression.  Any
other operand combination is a type error. -/
def pyAdd : PyVal → PyVal → PyVal
  | PyVal.num a, PyVal.num b => PyVal.num (a + b)
  | PyVal.num a, PyVal.expr e =>
      match mkAdd (Expr.const a) e with
      | Except.ok e2 => PyVal.expr e2
      | Except.error _ => PyVal.err
  | PyVal.expr e, PyVal.num a =>
      match mkAdd e (Expr.const a) with
      | Except.ok e2 => PyVal.expr e2
      | Except.error _ => PyVal.err
  | PyVal.expr e, PyVal.expr f =>
      match mkAdd e f with
      | Except.ok e2 => PyVal.expr e2
      | Except.error _ => PyVal.err
  | _, _ => PyVal.err

/-- Python negation of a number or Expression. -/
def pyNeg : PyVal → PyVal
  | PyVal.num a => PyVal.num (-a)
  | PyVal.expr e => PyVal.expr (Expr.neg e)
  | _ => PyVal.err

/-- Python abs as dispatched between numbers and Expressions; on an
Expression it applies the library's absolute-value atom with eager
validation. -/
def pyAbs : PyVal → PyVal
  | PyVal.num a => PyVal.num |a|
  | PyVal.expr e =>
      match mkAbs e with
      | Except.ok e2 => PyVal.expr e2
      | Except.error _ => PyVal.err
  | _ => PyVal.err

/-- Python equality comparison: between two numbers it is a boolean;
when either side is an Expression the library builds an equality
Constraint (reflected dispatch puts the Expression on the left). -/
def pyEq : PyVal → PyVal → PyVal
  | PyVal.num a, PyVal.num b => PyVal.bool (decide (a = b))
  | PyVal.expr e, PyVal.num a => constrOrErr (mkEq e (Expr.const a))
  | PyVal.num a, PyVal.expr e => constrOrErr (mkEq e (Expr.const a))
  | PyVal.expr e, PyVal.expr f => constrOrErr (mkEq e f)
  | _, _ => PyVal.err

/-- Python less-or-equal comparison: between two numbers it is a
boolean; when either side is an Expression the library builds an
inequality Constraint in the written orientation. -/
def pyLe : PyVal → PyVal → PyVal
  | PyVal.num a, PyVal.num b => PyVal.bool (decide (a ≤ b))
  | PyVal.expr e, PyVal.num a => constrOrErr (mkLe e (Expr.const a))
  | PyVal.num a, PyVal.expr e => constrOrErr (mkLe (Expr.const a) e)
  | PyVal.expr e, PyVal.expr f => constrOrErr (mkLe e f)
  | _, _ => PyVal.err

/-- Python sum builtin with its default start value, the number 0. -/
def pySum (xs : List PyVal) : PyVal :=
  xs.foldl pyAdd (PyVal.num 0)

/-- Satisfaction of a Python value used in constraint position: a
Constraint object must hold under the assignment, a boolean must be
True, anything else is invalid. -/
def satisfiedPy (σ : Nat → ℚ) : PyVal → Prop
  | PyVal.constr c => satC σ c
  | PyVal.bool b => b = true
  | _ => False

instance (σ : Nat → ℚ) (v : PyVal) : Decidable (satisfiedPy σ v) := by
  cases v <;> simp only [satisfiedPy] <;> infer_instance

/-- Numeric Python values: numbers and Expressions. -/
def isNum : PyVal → Bool
  | PyVal.num _ => true
  | PyVal.expr _ => true
  | _ => false

/-- Numeric evaluation of a Python value under an assignment. -/
def evalPy (σ : Nat → ℚ) : PyVal → ℚ
  | PyVal.num q => q
  | PyVal.expr e => evalE σ e
  | _ => 0

/-- Scalar numeric Python values: numbers and scalar-shaped library
Expressions. -/
def scalarNum : PyVal → Bool
  | PyVal.num _ => true
  | PyVal.expr e =>
      match shapeOf e with
      | Except.ok Shape.scalar => true
      | _ => false
  | _ => false

/-- Node class from the notebook: a node with an accumulation target and
a list of incident edge flows. -/
structure Node where
  accumulation : PyVal
  edge_flows : List PyVal
  deriving DecidableEq, Repr

/-- Node construction as in the notebook's init: a given accumulation
target (0 by default) and an empty edge-flow list. -/
def Node.make (accumulation : PyVal) : Node :=
  { accumulation := accumulation, edge_flows := [] }

/-- Returns the node's internal constraints, as in the notebook: the sum
of the incident edge flows compared for equality with the accumulation. -/
def Node.constraints (n : Node) : List PyVal :=
  [pyEq (pySum n.edge_flows) n.accumulation]

/-- Edge class from the notebook: an undirected, capacity limited edge
with a scalar flow Variable. -/
structure Edge where
  capacity : ℚ
  flow : Expr
  deriving DecidableEq, Repr

/-- Edge construction as in the notebook's init: a given capacity and a
fresh scalar flow Variable with the given identity. -/
def Edge.make (capacity : ℚ) (id : Nat) : Edge :=
  { capacity := capacity, flow := Expr.var id Shape.scalar }

/-- Connects two nodes via the edge, as in the notebook: the negated
flow is appended to the in-node's edge flows and the flow itself to the
out-node's edge flows.  Python mutation is modelled by returning the two
updated nodes. -/
def Edge.connect (e : Edge) (in_node out_node : Node) : Node × Node :=
  ({ in_node with edge_flows := in_node.edge_flows ++ [pyNeg (PyVal.expr e.flow)] },
   { out_node with edge_flows := out_node.edge_flows ++ [PyVal.expr e.flow] })

/-- Returns the edge's internal constraints, as in the notebook: the
absolute value of the flow bounded by the capacity. -/
def Edge.constraints (e : Edge) : List PyVal :=
  [pyLe (pyAbs (PyVal.expr e.flow)) (PyVal.num e.capacity)]

/-- Modelled from the spec: a Problem is an objective direction, an
objective Expression, and an ordered collection of constraints. -/
structure Problem where
  maximize : Bool
  objective : Expr
  constraints : List PyVal

/-- Feasibility of an assignment for a Problem: every collected
constraint is satisfied. -/
def Problem.feasible (p : Problem) (σ : Nat → ℚ) : Prop :=
  ∀ v ∈ p.constraints, satisfiedPy σ v

/-- Set of objective values attained by feasible assignments of a
Problem; the optimal value is the supremum (maximize) or infimum
(minimize) of this set. -/
def Problem.valueSet (p : Problem) : Set ℚ :=
  {v | ∃ σ, p.feasible σ ∧ v = evalE σ p.objective}

/-- Modelled from the spec: the assembler's collection loop from the
notebook — constraint lists contributed by arbitrary objects are
concatenated in order into one flat list, without deduplication. -/
def collectConstraints (contributed : List (List PyVal)) : List PyVal :=
  contributed.foldl (fun acc cs => acc ++ cs) []

/-- Total shape function used to give an auxiliary variable the shape of
the atom result it replaces (on shape-valid input it agrees with
shapeOf). -/
def shapeD : Expr → Shape
  | Expr.var _ s => s
  | Expr.const _ => Shape.scalar
  | Expr.add a b =>
      match broadcast (shapeD a) (shapeD b) with
      | Except.ok s => s
      | Except.error _ => Shape.scalar
  | Expr.neg a => shapeD a
  | Expr.smul _ a => shapeD a
  | Expr.absA a => shapeD a

/-- Modelled from the spec: bottom-up atom canonicalization.  Children
are canonicalized first; every absolute-value node is then replaced by a
fresh auxiliary variable t with the side constraints -t <= x and x <= t.
The Nat argument is the next fresh auxiliary identity; the result is the
substituted expression, the next fresh identity and the emitted
auxiliary constraints. -/
def canonExpr : Expr → Nat → Expr × Nat × List Constr
  | Expr.var i s, n => (Expr.var i s, n, [])
  | Expr.const q, n => (Expr.const q, n, [])
  | Expr.add a b, n =>
      let p := canonExpr a n
      let q := canonExpr b p.2.1
      (Expr.add p.1 q.1, q.2.1, p.2.2 ++ q.2.2)
  | Expr.neg a, n =>
      let p := canonExpr a n
      (Expr.neg p.1, p.2.1, p.2.2)
  | Expr.smul q a, n =>
      let p := canonExpr a n
      (Expr.smul q p.1, p.2.1, p.2.2)
  | Expr.absA a, n =>
      let p := canonExpr a n
      let t := Expr.var p.2.1 (shapeD p.1)
      (t, p.2.1 + 1, p.2.2 ++ [Constr.le (Expr.neg t) p.1, Constr.le p.1 t])

/-- Modelled from the spec: canonicalization of a declared Constraint —
both operands are canonicalized and the emitted auxiliary constraints
accompany the rewritten relation. -/
def canonConstr : Constr → Nat → List Constr × Nat
  | Constr.le l r, n =>
      let p := canonExpr l n
      let q := canonExpr r p.2.1
      (p.2.2 ++ q.2.2 ++ [Constr.le p.1 q.1], q.2.1)
  | Constr.eq l r, n =>
      let p := canonExpr l n
      let q := canonExpr r p.2.1
      (p.2.2 ++ q.2.2 ++ [Constr.eq p.1 q.1], q.2.1)

/-- Canonicalization of an ordered Constraint set, threading the fresh
auxiliary identity through the list. -/
def canonList : List Constr → Nat → List Constr × Nat
  | [], n => ([], n)
  | c :: cs, n =>
      let p := canonConstr c n
      let q := canonList cs p.2
      (p.1 ++ q.1, q.2)

/-- An Expression is canonical when it contains only affine primitives,
i.e. no atom applications. -/
def isCanonical : Expr → Bool
  | Expr.var _ _ => true
  | Expr.const _ => true
  | Expr.add a b => isCanonical a && isCanonical b
  | Expr.neg a => isCanonical a
  | Expr.smul _ a => isCanonical a
  | Expr.absA _ => false

/-- A Constraint is canonical when both operands are canonical. -/
def isCanonicalC : Constr → Bool
  | Constr.le l r => isCanonical l && isCanonical r
  | Constr.eq l r => isCanonical l && isCanonical r

/-- Pointwise update of an assignment at one variable identity. -/
def upd (σ : Nat → ℚ) (j : Nat) (t : ℚ) : Nat → ℚ :=
  fun i => if i = j then t else σ i

/-- Linear coefficient of a canonical (affine) Expression at a variable
identity. -/
def coeff : Expr → Nat → ℚ
  | Expr.var i _, j => if i = j then 1 else 0
  | Expr.const _, _ => 0
  | Expr.add a b, j => coeff a j + coeff b j
  | Expr.neg a, j => -coeff a j
  | Expr.smul q a, j => q * coeff a j
  | Expr.absA _, _ => 0

/-- Constant term of a canonical (affine) Expression. -/
def constTerm : Expr → ℚ
  | Expr.var _ _ => 0
  | Expr.const q => q
  | Expr.add a b => constTerm a + constTerm b
  | Expr.neg a => -constTerm a
  | Expr.smul q a => q * constTerm a
  | Expr.absA _ => 0

/-- First-seen deduplication of a traversal list of variable identities:
each identity keeps the position of its first occurrence. -/
def firstSeen (xs : List Nat) : List Nat :=
  xs.foldl (fun acc i => if i ∈ acc then acc else acc ++ [i]) []

/-- Variable identities of a Constraint in traversal order. -/
def constrVars : Constr → List Nat
  | Constr.le l r => varsOf l ++ varsOf r
  | Constr.eq l r => varsOf l ++ varsOf r

/-- Modelled from the spec: the standard form — a stable variable
ordering, the objective coefficient row, an affine equality block and an
affine inequality block; each row is a coefficient vector over the
ordering plus an offset, in the normalized lhs - rhs
relative-to-zero form. -/
structure StdForm where
  order : List Nat
  objRow : List ℚ
  eqRows : List (List ℚ × ℚ)
  leRows : List (List ℚ × ℚ)
  deriving DecidableEq, Repr

/-- Row of the standard form for a relation between l and r: the
coefficients of l - r over the ordering and the offset of l - r. -/
def stdRow (order : List Nat) (l r : Expr) : List ℚ × ℚ :=
  (order.map (fun i => coeff l i - coeff r i), constTerm l - constTerm r)

/-- Modelled from the spec: the Standard-Form Builder.  Every distinct
Variable is assigned a stable position in first-seen traversal order
(objective first, then each canonical constraint in declaration order);
each equality and each inequality constraint contributes one row over
that ordering. -/
def buildStandardForm (obj : Expr) (cs : List Constr) : StdForm :=
  let order := firstSeen (varsOf obj ++ (cs.map constrVars).flatten)
  { order := order
    objRow := order.map (coeff obj)
    eqRows := cs.filterMap (fun c =>
      match c with
      | Constr.eq l r => some (stdRow order l r)
      | _ => none)
    leRows := cs.filterMap (fun c =>
      match c with
      | Constr.le l r => some (stdRow order l r)
      | _ => none) }

/-- Pointwise update of a value-slot map at one variable identity. -/
def updOpt (vals : Nat → Option ℚ) (j : Nat) (x : Option ℚ) : Nat → Option ℚ :=
  fun i => if i = j then x else vals i

/-- Modelled from the spec: scattering the solver's primal vector back
into the Variable value slots.  Walks the builder's variable ordering
with positions starting at pos; a user-declared Variable's slot receives
the primal entry at its position, an auxiliary variable's entry is
discarded. -/
def scatterAux (userIds : List Nat) (primal : Nat → ℚ) :
    List Nat → Nat → (Nat → Option ℚ) → Nat → Option ℚ
  | [], _, vals => vals
  | i :: rest, pos, vals =>
      scatterAux userIds primal rest (pos + 1)
        (if i ∈ userIds then updOpt vals i (some (primal pos)) else vals)

/-- Scatter over a whole ordering, positions starting at 0. -/
def scatter (order userIds : List Nat) (primal : Nat → ℚ)
    (vals : Nat → Option ℚ) : Nat → Option ℚ :=
  scatterAux userIds primal order 0 vals

/-- State visible to the user around a solve: the Problem and the value
slots of all Variables. -/
structure SolveState where
  prob : Problem
  vals : Nat → Option ℚ

/-- Modelled from the spec: the write-back step of a successful solve —
the Problem itself (its objective, Expressions and declared Constraints)
is untouched; only the Variable value slots are rewritten by scattering
the primal vector over the builder's ordering. -/
def writeBack (s : SolveState) (order userIds : List Nat)
    (primal : Nat → ℚ) : SolveState :=
  { prob := s.prob, vals := scatter order userIds primal s.vals }

/-!
The end-to-end flow-network scenario: four nodes, five edges (three
capacity-limited edges with flow Variables 0, 1 and 2, forming the two
paths 0→1→3 and 0→3, plus the source edge entering node 0 and the sink
edge leaving node 3), all capacities equal to c.  Node 2 is isolated.
The source and sink accumulations are Variables 3 and 4.
-/

/-- Capacity-c edge from node 0 to node 1, flow Variable 0. -/
def edgeA (c : ℚ) : Edge := Edge.make c 0

/-- Capacity-c edge from node 1 to node 3, flow Variable 1. -/
def edgeB (c : ℚ) : Edge := Edge.make c 1

/-- Capacity-c edge from node 0 to node 3, flow Variable 2. -/
def edgeC (c : ℚ) : Edge := Edge.make c 2

/-- Source node, its accumulation the fresh Variable 3. -/
def nodeSource : Node := Node.make (PyVal.expr (Expr.var 3 Shape.scalar))

/-- Interior node on the two-edge path. -/
def nodeMid : Node := Node.make (PyVal.num 0)

/-- Isolated fourth node with the default accumulation. -/
def nodeIso : Node := Node.make (PyVal.num 0)

/-- Sink node, its accumulation the fresh Variable 4. -/
def nodeSink : Node := Node.make (PyVal.expr (Expr.var 4 Shape.scalar))

/-- The four nodes after the three connect calls of the scenario
(edge A from the source node to the mid node, edge B from the mid node
to the sink node, edge C from the source node to the sink node), in the
order source, mid, isolated, sink. -/
def connectedNodes (c : ℚ) : Node × Node × Node × Node :=
  let pA := (edgeA c).connect nodeSource nodeMid
  let pB := (edgeB c).connect pA.2 nodeSink
  let pC := (edgeC c).connect pA.1 pB.2
  (pC.1, pB.1, nodeIso, pC.2)

/-- Constraint list collected by the notebook's assembly loop: the
constraints of every node, then of every edge, concatenated in order. -/
def ooConstraints (c : ℚ) : List PyVal :=
  collectConstraints
    [(connectedNodes c).1.constraints,
     (connectedNodes c).2.1.constraints,
     (connectedNodes c).2.2.1.constraints,
     (connectedNodes c).2.2.2.constraints,
     (edgeA c).constraints,
     (edgeB c).constraints,
     (edgeC c).constraints]

/-- Problem assembled from the composed objects: maximize the sink
node's accumulation subject to every contributed constraint. -/
def ooProblem (c : ℚ) : Problem :=
  { maximize := true
    objective :=
      match (connectedNodes c).2.2.2.accumulation with
      | PyVal.expr e => e
      | _ => Expr.const 0
    constraints := ooConstraints c }

/-- Modelled from the spec: the incidence matrix of the network.  Edge
columns are the three capacity edges 0→1, 1→3, 0→3, then the source
edge entering node 0 and the sink edge leaving node 3; an entry is +1
when the edge enters the node, -1 when it leaves, 0 otherwise.  The
isolated node 2 gives a zero row. -/
def incidence : List (List ℚ) :=
  [[-1, 0, -1, 1, 0],
   [1, -1, 0, 0, 0],
   [0, 0, 0, 0, 0],
   [0, 1, 1, 0, -1]]

/-- Dot product of two rational lists. -/
def dotQ : List ℚ → List ℚ → ℚ
  | a :: as, b :: bs => a * b + dotQ as bs
  | _, _ => 0

/-- Modelled from the spec: feasibility in the explicit incidence-matrix
formulation — A * hstack(flows, source, sink) == 0 together with
0 <= flows and flows <= c. -/
def matFeasible (c f0 f1 f2 src snk : ℚ) : Prop :=
  (∀ row ∈ incidence, dotQ row [f0, f1, f2, src, snk] = 0) ∧
  (0 ≤ f0 ∧ 0 ≤ f1 ∧ 0 ≤ f2) ∧ (f0 ≤ c ∧ f1 ≤ c ∧ f2 ≤ c)

/-- Objective values attained by feasible points of the matrix
formulation, whose supremum is the optimal value of Maximize(source). -/
def matValueSet (c : ℚ) : Set ℚ :=
  {v | ∃ f0 f1 f2 src snk, matFeasible c f0 f1 f2 src snk ∧ v = src}

/-!
Helper lemmas.
-/

/-- A Python value recognised as a scalar numeric Expression has scalar
shape. -/
lemma scalarNum_expr (e : Expr) (h : scalarNum (PyVal.expr e) = true) :
    shapeOf e = Except.ok Shape.scalar := by
  simp only [scalarNum] at h
  split at h
  · assumption
  · cases h

/-- Python addition of two scalar numeric values is scalar numeric and
evaluates to the sum of the evaluations. -/
lemma pyAdd_scalarNum (σ : Nat → ℚ) (a b : PyVal)
    (ha : scalarNum a = true) (hb : scalarNum b = true) :
    scalarNum (pyAdd a b) = true ∧
      evalPy σ (pyAdd a b) = evalPy σ a + evalPy σ b := by
  cases a with
  | num qa =>
    cases b with
    | num qb => simp [pyAdd, scalarNum, evalPy]
    | expr e =>
      have he := scalarNum_expr e hb
      simp [pyAdd, mkAdd, shapeOf, he, broadcast, scalarNum, evalPy, evalE]
    | bool b => simp [scalarNum] at hb
    | constr c => simp [scalarNum] at hb
    | err => simp [scalarNum] at hb
  | expr e =>
    have he := scalarNum_expr e ha
    cases b with
    | num qb =>
      simp [pyAdd, mkAdd, shapeOf, he, broadcast, scalarNum, evalPy, evalE]
    | expr f =>
      have hf := scalarNum_expr f hb
      simp [pyAdd, mkAdd, shapeOf, he, hf, broadcast, scalarNum, evalPy, evalE]
    | bool b => simp [scalarNum] at hb
    | constr c => simp [scalarNum] at hb
    | err => simp [scalarNum] at hb
  | bool b => simp [scalarNum] at ha
  | constr c => simp [scalarNum] at ha
  | err => simp [scalarNum] at ha

/-- The Python sum of a list of scalar numeric values is scalar numeric
and evaluates to the sum of the evaluations. -/
lemma pySum_scalarNum (σ : Nat → ℚ) (xs : List PyVal)
    (hxs : ∀ v ∈ xs, scalarNum v = true) :
    scalarNum (pySum xs) = true ∧
      evalPy σ (pySum xs) = (xs.map (evalPy σ)).sum := by
  suffices h : ∀ acc, scalarNum acc = true →
      scalarNum (xs.foldl pyAdd acc) = true ∧
        evalPy σ (xs.foldl pyAdd acc) = evalPy σ acc + (xs.map (evalPy σ)).sum by
    have h0 := h (PyVal.num 0) rfl
    simpa [pySum, evalPy] using h0
  induction xs with
  | nil => intro acc hacc; simp [hacc, evalPy]
  | cons x rest ih =>
    intro acc hacc
    have hx : scalarNum x = true := hxs x (by simp)
    have hstep := pyAdd_scalarNum σ acc x hacc hx
    have hrest := ih (fun v hv => hxs v (by simp [hv])) (pyAdd acc x) hstep.1
    simp only [List.foldl_cons, List.map_cons, List.sum_cons]
    exact ⟨hrest.1, by rw [hrest.2, hstep.2]; ring⟩

/-- The constraint list collected in the scenario, written out. -/
lemma ooConstraints_explicit (c : ℚ) :
    ooConstraints c =
      [PyVal.constr (Constr.eq
         (Expr.add (Expr.add (Expr.const 0) (Expr.neg (Expr.var 0 Shape.scalar)))
           (Expr.neg (Expr.var 2 Shape.scalar)))
         (Expr.var 3 Shape.scalar)),
       PyVal.constr (Constr.eq
         (Expr.add (Expr.add (Expr.const 0) (Expr.var 0 Shape.scalar))
           (Expr.neg (Expr.var 1 Shape.scalar)))
         (Expr.const 0)),
       PyVal.bool true,
       PyVal.constr (Constr.eq
         (Expr.add (Expr.add (Expr.const 0) (Expr.var 1 Shape.scalar))
           (Expr.var 2 Shape.scalar))
         (Expr.var 4 Shape.scalar)),
       PyVal.constr (Constr.le (Expr.absA (Expr.var 0 Shape.scalar)) (Expr.const c)),
       PyVal.constr (Constr.le (Expr.absA (Expr.var 1 Shape.scalar)) (Expr.const c)),
       PyVal.constr (Constr.le (Expr.absA (Expr.var 2 Shape.scalar)) (Expr.const c))] := rfl

/-- Feasibility of the object-composed problem, reduced to plain
arithmetic over the five variables. -/
lemma ooFeasible_iff (c : ℚ) (σ : Nat → ℚ) :
    (ooProblem c).feasible σ ↔
      (-σ 0 + -σ 2 = σ 3 ∧ σ 0 + -σ 1 = 0 ∧ σ 1 + σ 2 = σ 4 ∧
       |σ 0| ≤ c ∧ |σ 1| ≤ c ∧ |σ 2| ≤ c) := by
  show (∀ v ∈ ooConstraints c, satisfiedPy σ v) ↔ _
  rw [ooConstraints_explicit]
  simp [satisfiedPy, satC, evalE]

/-- Canonicalizing an already-canonical Expression is the identity and
emits nothing. -/
lemma canonExpr_canonical (e : Expr) (h : isCanonical e = true) :
    ∀ n, canonExpr e n = (e, n, []) := by
  induction e with
  | var i s => intro n; rfl
  | const q => intro n; rfl
  | add a b iha ihb =>
    intro n
    simp only [isCanonical, Bool.and_eq_true] at h
    simp [canonExpr, iha h.1, ihb h.2]
  | neg a iha =>
    intro n
    simp only [isCanonical] at h
    simp [canonExpr, iha h]
  | smul q a iha =>
    intro n
    simp only [isCanonical] at h
    simp [canonExpr, iha h]
  | absA a iha => simp [isCanonical] at h

/-- Canonicalizing an already-canonical Constraint returns it alone. -/
lemma canonConstr_canonical (c : Constr) (h : isCanonicalC c = true) :
    ∀ n, canonConstr c n = ([c], n) := by
  cases c with
  | le l r =>
    intro n
    simp only [isCanonicalC, Bool.and_eq_true] at h
    simp [canonConstr, canonExpr_canonical l h.1, canonExpr_canonical r h.2]
  | eq l r =>
    intro n
    simp only [isCanonicalC, Bool.and_eq_true] at h
    simp [canonConstr, canonExpr_canonical l h.1, canonExpr_canonical r h.2]

/-- Canonicalizing an already-canonical Constraint set is the identity. -/
lemma canonList_canonical (cs : List Constr) (h : ∀ c ∈ cs, isCanonicalC c = true) :
    ∀ n, canonList cs n = (cs, n) := by
  induction cs with
  | nil => intro n; rfl
  | cons c rest ih =>
    intro n
    simp [canonList, canonConstr_canonical c (h c (by simp)),
      ih (fun d hd => h d (by simp [hd]))]

/-- Updating an assignment at an identity not occurring in an Expression
does not change the Expression's value. -/
lemma evalE_upd (e : Expr) (j : Nat) (t : ℚ) (σ : Nat → ℚ) (hj : j ∉ varsOf e) :
    evalE (upd σ j t) e = evalE σ e := by
  induction e with
  | var i s =>
    simp only [varsOf, List.mem_singleton] at hj
    simp only [evalE, upd]
    rw [if_neg]
    intro h
    exact hj h.symm
  | const q => rfl
  | add a b iha ihb =>
    simp only [varsOf, List.mem_append] at hj
    push_neg at hj
    simp [evalE, iha hj.1, ihb hj.2]
  | neg a iha => simp only [varsOf] at hj; simp [evalE, iha hj]
  | smul q a iha => simp only [varsOf] at hj; simp [evalE, iha hj]
  | absA a iha => simp only [varsOf] at hj; simp [evalE, iha hj]

/-- The first-seen fold keeps an accumulator without duplicates free of
duplicates. -/
lemma firstSeen_acc_nodup (xs : List Nat) :
    ∀ acc : List Nat, acc.Nodup →
      (xs.foldl (fun acc i => if i ∈ acc then acc else acc ++ [i]) acc).Nodup := by
  induction xs with
  | nil => intro acc h; exact h
  | cons x rest ih =>
    intro acc h
    simp only [List.foldl_cons]
    by_cases hx : x ∈ acc
    · rw [if_pos hx]; exact ih acc h
    · rw [if_neg hx]
      apply ih
      simp [List.nodup_append, h, hx]

/-- First-seen deduplication yields a duplicate-free ordering. -/
lemma firstSeen_nodup (xs : List Nat) : (firstSeen xs).Nodup :=
  firstSeen_acc_nodup xs [] List.nodup_nil

/-- The assembler's collection loop preserves every contributed
constraint: the flat list's length is the sum of the contributed
lengths. -/
lemma collect_length (contributed : List (List PyVal)) :
    (collectConstraints contributed).length =
      (contributed.map List.length).sum := by
  suffices h : ∀ acc : List PyVal,
      (contributed.foldl (fun a cs => a ++ cs) acc).length =
        acc.length + (contributed.map List.length).sum by
    simpa [collectConstraints] using h []
  induction contributed with
  | nil => intro acc; simp
  | cons cs rest ih =>
    intro acc
    simp only [List.foldl_cons, List.map_cons, List.sum_cons, ih, List.length_append]
    omega

/-- Scattering changes no slot whose identity is outside the ordering. -/
lemma scatterAux_not_mem (userIds : List Nat) (primal : Nat → ℚ) (order : List Nat) :
    ∀ pos vals i, i ∉ order → scatterAux userIds primal order pos vals i = vals i := by
  induction order with
  | nil => intro pos vals i h; rfl
  | cons a rest ih =>
    intro pos vals i h
    simp only [List.mem_cons, not_or] at h
    simp only [scatterAux]
    rw [ih _ _ _ h.2]
    by_cases ha : a ∈ userIds
    · rw [if_pos ha]
      simp only [updOpt]
      rw [if_neg h.1]
    · rw [if_neg ha]

/-- Scattering changes no slot of a non-user (auxiliary) variable. -/
lemma scatterAux_not_user (userIds : List Nat) (primal : Nat → ℚ) (order : List Nat) :
    ∀ pos vals i, i ∉ userIds → scatterAux userIds primal order pos vals i = vals i := by
  induction order with
  | nil => intro pos vals i h; rfl
  | cons a rest ih =>
    intro pos vals i h
    simp only [scatterAux]
    rw [ih _ _ _ h]
    by_cases ha : a ∈ userIds
    · rw [if_pos ha]
      simp only [updOpt]
      rw [if_neg]
      intro heq
      subst heq
      exact h ha
    · rw [if_neg ha]

/-- Over a duplicate-free ordering, a user variable's slot ends up
holding exactly the primal entry at the variable's position. -/
lemma scatterAux_mem (userIds : List Nat) (primal : Nat → ℚ) :
    ∀ order : List Nat, order.Nodup →
      ∀ pos vals i, i ∈ order → i ∈ userIds →
        scatterAux userIds primal order pos vals i =
          some (primal (pos + order.indexOf i)) := by
  intro order
  induction order with
  | nil => intro _ pos vals i hi; cases hi
  | cons a rest ih =>
    intro hnd pos vals i hi hu
    simp only [scatterAux]
    rcases List.mem_cons.mp hi with heq | hmem
    · subst heq
      have hnotin : i ∉ rest := (List.nodup_cons.mp hnd).1
      rw [scatterAux_not_mem _ _ _ _ _ _ hnotin]
      rw [if_pos hu]
      simp only [updOpt, if_pos rfl, List.indexOf_cons_self]
      simp
    · have hne : a ≠ i := by
        intro heq
        exact (List.nodup_cons.mp hnd).1 (heq ▸ hmem)
      rw [ih (List.nodup_cons.mp hnd).2 _ _ _ hmem hu]
      rw [List.indexOf_cons_ne _ hne]
      have harith : pos + 1 + List.indexOf i rest =
          pos + Nat.succ (List.indexOf i rest) := by omega
      rw [harith]

/-!
Claim theorems.
-/

/-- C1: for the 4-node, 5-edge flow network with identical capacities c,
the problem built from explicit incidence-matrix constraints (maximize
source subject to A * hstack(flows, source, sink) == 0, 0 <= flows,
flows <= c) and the problem assembled from the composed Edge and Node
objects (each Edge a capacity constraint, each Node a conservation
constraint, objective maximize the sink accumulation) attain the same
optimal value: 2c is the greatest attainable objective value of both. -/
theorem objectCompositionEquivalence (c : ℚ) (hc : 0 ≤ c) :
    ∃ v, IsGreatest (matValueSet c) v ∧ IsGreatest ((ooProblem c).valueSet) v := by
  have hobj : (ooProblem c).objective = Expr.var 4 Shape.scalar := rfl
  refine ⟨2 * c, ⟨?_, ?_⟩, ⟨?_, ?_⟩⟩
  · refine ⟨c, c, c, 2 * c, 2 * c, ⟨?_, ⟨by linarith, by linarith, by linarith⟩,
      ⟨by linarith, by linarith, by linarith⟩⟩, rfl⟩
    intro row hrow
    simp [incidence] at hrow
    rcases hrow with h | h | h | h <;> subst h <;> simp [dotQ] <;> ring
  · rintro v ⟨f0, f1, f2, src, snk, ⟨hrows, hnn, hub⟩, rfl⟩
    have h0 := hrows [-1, 0, -1, 1, 0] (by simp [incidence])
    simp [dotQ] at h0
    linarith [hnn.1, hnn.2.1, hnn.2.2, hub.1, hub.2.1, hub.2.2]
  · refine ⟨fun i => if i = 0 then c else if i = 1 then c else if i = 2 then c
      else if i = 3 then -(2 * c) else 2 * c, ?_, ?_⟩
    · rw [ooFeasible_iff]
      norm_num [abs_of_nonneg hc]
      exact ⟨by ring, by ring⟩
    · rw [hobj]
      simp [evalE]
  · rintro v ⟨σ, hfeas, rfl⟩
    rw [ooFeasible_iff] at hfeas
    obtain ⟨h1, h2, h3, h4, h5, h6⟩ := hfeas
    rw [hobj]
    simp only [evalE]
    have hb := le_of_abs_le h5
    have hcc := le_of_abs_le h6
    linarith

/-- Witness for C1 at capacity 1. -/
theorem objectCompositionEquivalence_witness :
    0 ≤ (1 : ℚ) ∧
      ∃ v, IsGreatest (matValueSet 1) v ∧ IsGreatest ((ooProblem 1).valueSet) v :=
  ⟨by norm_num, objectCompositionEquivalence 1 (by norm_num)⟩

/-- C2: canonicalizing the constraint |x| <= c for affine (canonical) x
introduces a fresh auxiliary variable t with -t <= x, x <= t, t <= c,
and the resulting system attains exactly the same objective values as
the original nonsmooth system inside any surrounding problem whose other
constraints P and objective g do not involve the auxiliary identity;
moreover the direct rewrite -c <= x <= c is pointwise equivalent to
|x| <= c. -/
theorem absCanonicalizationEquivalence (x : Expr) (cap : ℚ) (j : Nat)
    (hx : isCanonical x = true) (hj : j ∉ varsOf x)
    (P : (Nat → ℚ) → Prop) (g : (Nat → ℚ) → ℚ)
    (hP : ∀ σ t, P (upd σ j t) ↔ P σ) (hg : ∀ σ t, g (upd σ j t) = g σ) :
    ({v | ∃ σ, P σ ∧
        (∀ con ∈ (canonConstr (Constr.le (Expr.absA x) (Expr.const cap)) j).1, satC σ con) ∧
        v = g σ}
      = {v | ∃ σ, P σ ∧ satC σ (Constr.le (Expr.absA x) (Expr.const cap)) ∧ v = g σ}) ∧
    (∀ σ, satC σ (Constr.le (Expr.absA x) (Expr.const cap)) ↔
      (satC σ (Constr.le (Expr.neg (Expr.const cap)) x) ∧
       satC σ (Constr.le x (Expr.const cap)))) := by
  have hcanon : (canonConstr (Constr.le (Expr.absA x) (Expr.const cap)) j).1 =
      [Constr.le (Expr.neg (Expr.var j (shapeD x))) x,
       Constr.le x (Expr.var j (shapeD x)),
       Constr.le (Expr.var j (shapeD x)) (Expr.const cap)] := by
    simp [canonConstr, canonExpr, canonExpr_canonical x hx]
  constructor
  · ext v
    simp only [Set.mem_setOf_eq, hcanon, List.mem_cons, List.not_mem_nil, or_false,
      forall_eq_or_imp, forall_eq]
    constructor
    · rintro ⟨σ, hPσ, ⟨h1, h2, h3⟩, rfl⟩
      refine ⟨σ, hPσ, ?_, rfl⟩
      simp only [satC, evalE, upd] at h1 h2 h3 ⊢
      rw [abs_le]
      constructor <;> linarith
    · rintro ⟨σ, hPσ, hsat, rfl⟩
      simp only [satC, evalE] at hsat
      refine ⟨upd σ j |evalE σ x|, (hP σ _).mpr hPσ, ⟨?_, ?_, ?_⟩, (hg σ _).symm⟩
      · simp only [satC, evalE, evalE_upd x j _ σ hj, upd, if_pos rfl]
        exact neg_abs_le _
      · simp only [satC, evalE, evalE_upd x j _ σ hj, upd, if_pos rfl]
        exact le_abs_self _
      · simp only [satC, evalE, upd, if_pos rfl]
        exact hsat
  · intro σ
    simp only [satC, evalE, abs_le]

/-- Witness for C2: x the scalar Variable 0, capacity 1, auxiliary
identity 1, no surrounding constraints, objective the value of
Variable 0. -/
theorem absCanonicalizationEquivalence_witness :
    ({v : ℚ | ∃ σ : Nat → ℚ, True ∧
        (∀ con ∈ (canonConstr
            (Constr.le (Expr.absA (Expr.var 0 Shape.scalar)) (Expr.const 1)) 1).1,
          satC σ con) ∧
        v = σ 0}
      = {v : ℚ | ∃ σ : Nat → ℚ, True ∧
          satC σ (Constr.le (Expr.absA (Expr.var 0 Shape.scalar)) (Expr.const 1)) ∧
          v = σ 0}) ∧
    (∀ σ : Nat → ℚ,
      satC σ (Constr.le (Expr.absA (Expr.var 0 Shape.scalar)) (Expr.const 1)) ↔
        (satC σ (Constr.le (Expr.neg (Expr.const 1)) (Expr.var 0 Shape.scalar)) ∧
         satC σ (Constr.le (Expr.var 0 Shape.scalar) (Expr.const 1)))) :=
  absCanonicalizationEquivalence (Expr.var 0 Shape.scalar) 1 1 rfl (by decide)
    (fun _ => True) (fun σ => σ 0) (fun _ _ => Iff.rfl) (fun _ _ => rfl)

/-- C3: canonicalization is idempotent — applied to an already-canonical
Expression or Constraint set (only affine primitives) it returns a
structurally identical result and introduces no auxiliary variables or
constraints. -/
theorem canonicalizationIdempotent :
    (∀ (e : Expr) (n : Nat), isCanonical e = true → canonExpr e n = (e, n, [])) ∧
    (∀ (cs : List Constr) (n : Nat), (∀ c ∈ cs, isCanonicalC c = true) →
      canonList cs n = (cs, n)) :=
  ⟨fun e n h => canonExpr_canonical e h n, fun cs n h => canonList_canonical cs h n⟩

/-- Witness for C3 on a concrete canonical expression and constraint
set. -/
theorem canonicalizationIdempotent_witness :
    canonExpr (Expr.add (Expr.var 0 Shape.scalar) (Expr.const 2)) 5
        = (Expr.add (Expr.var 0 Shape.scalar) (Expr.const 2), 5, []) ∧
    canonList [Constr.le (Expr.var 0 Shape.scalar) (Expr.const 3)] 7
        = ([Constr.le (Expr.var 0 Shape.scalar) (Expr.const 3)], 7) :=
  ⟨canonicalizationIdempotent.1 _ 5 rfl,
   canonicalizationIdempotent.2 _ 7 (by decide)⟩

/-- C4: combining two Expressions: a scalar operand adopts the other
operand's shape (either side), equal non-scalar shapes combine
elementwise to that shape, and mismatched non-scalar shapes fail with
shapeMismatch at construction time. -/
theorem shapeBroadcastRules :
    (∀ (a b : Expr) (n : Nat), shapeOf a = Except.ok Shape.scalar →
      shapeOf b = Except.ok (Shape.vec n) →
      shapeOf (Expr.add a b) = Except.ok (Shape.vec n)) ∧
    (∀ (a b : Expr) (n : Nat), shapeOf a = Except.ok (Shape.vec n) →
      shapeOf b = Except.ok Shape.scalar →
      shapeOf (Expr.add a b) = Except.ok (Shape.vec n)) ∧
    (∀ (a b : Expr) (n : Nat), shapeOf a = Except.ok (Shape.vec n) →
      shapeOf b = Except.ok (Shape.vec n) →
      shapeOf (Expr.add a b) = Except.ok (Shape.vec n)) ∧
    (∀ (a b : Expr) (n m : Nat), n ≠ m → 1 < n → 1 < m →
      shapeOf a = Except.ok (Shape.vec n) → shapeOf b = Except.ok (Shape.vec m) →
      shapeOf (Expr.add a b) = Except.error Err.shapeMismatch) := by
  refine ⟨?_, ?_, ?_, ?_⟩
  · intro a b n ha hb
    simp [shapeOf, ha, hb, broadcast]
  · intro a b n ha hb
    simp [shapeOf, ha, hb, broadcast]
  · intro a b n ha hb
    simp [shapeOf, ha, hb, broadcast]
  · intro a b n m hnm _ _ ha hb
    simp [shapeOf, ha, hb, broadcast, hnm]

/-- Witness for C4 on concrete scalar and vector Variables. -/
theorem shapeBroadcastRules_witness :
    shapeOf (Expr.add (Expr.var 0 Shape.scalar) (Expr.var 1 (Shape.vec 3)))
        = Except.ok (Shape.vec 3) ∧
    shapeOf (Expr.add (Expr.var 1 (Shape.vec 3)) (Expr.var 0 Shape.scalar))
        = Except.ok (Shape.vec 3) ∧
    shapeOf (Expr.add (Expr.var 0 (Shape.vec 3)) (Expr.var 1 (Shape.vec 3)))
        = Except.ok (Shape.vec 3) ∧
    shapeOf (Expr.add (Expr.var 0 (Shape.vec 2)) (Expr.var 1 (Shape.vec 3)))
        = Except.error Err.shapeMismatch :=
  ⟨shapeBroadcastRules.1 _ _ 3 rfl rfl,
   shapeBroadcastRules.2.1 _ _ 3 rfl rfl,
   shapeBroadcastRules.2.2.1 _ _ 3 rfl rfl,
   shapeBroadcastRules.2.2.2 _ _ 2 3 (by decide) (by decide) (by decide) rfl rfl⟩

/-- C5: applying the convex non-monotonic absolute-value atom to an
affine argument yields a convex Expression, negating it yields a concave
Expression, and using that negation on the convex side of an inequality
constraint fails with dcpViolation instead of being accepted. -/
theorem dcpNegatedConvexRejected (a : Expr) (s : Shape) (q : ℚ)
    (hs : shapeOf a = Except.ok s) (hc : curvOf a = Except.ok Curvature.affine) :
    curvOf (Expr.absA a) = Except.ok Curvature.convex ∧
    curvOf (Expr.neg (Expr.absA a)) = Except.ok Curvature.concave ∧
    mkLe (Expr.neg (Expr.absA a)) (Expr.const q) = Except.error Err.dcpViolation := by
  refine ⟨?_, ?_, ?_⟩
  · simp [curvOf, hc]
  · simp [curvOf, hc, curvNeg]
  · cases s <;> simp [mkLe, shapeOf, hs, hc, curvOf, curvNeg, broadcast]

/-- Witness for C5 at the scalar Variable 0 and capacity 5. -/
theorem dcpNegatedConvexRejected_witness :
    curvOf (Expr.absA (Expr.var 0 Shape.scalar)) = Except.ok Curvature.convex ∧
    curvOf (Expr.neg (Expr.absA (Expr.var 0 Shape.scalar)))
        = Except.ok Curvature.concave ∧
    mkLe (Expr.neg (Expr.absA (Expr.var 0 Shape.scalar))) (Expr.const 5)
        = Except.error Err.dcpViolation :=
  dcpNegatedConvexRejected (Expr.var 0 Shape.scalar) Shape.scalar 5 rfl rfl

/-- C6: the Standard-Form Builder is deterministic: two builds of an
unmodified Problem are identical, the variable ordering is exactly the
first-seen order of the traversal (objective first, then the constraints
in declaration order), and that ordering assigns each distinct Variable
one position (no duplicates). -/
theorem standardFormDeterministic (obj : Expr) (cs : List Constr) :
    buildStandardForm obj cs = buildStandardForm obj cs ∧
    (buildStandardForm obj cs).order
        = firstSeen (varsOf obj ++ (cs.map constrVars).flatten) ∧
    (buildStandardForm obj cs).order.Nodup :=
  ⟨rfl, rfl, firstSeen_nodup _⟩

/-- C7: appending a constraint already present in a Problem's constraint
list leaves the set of attainable objective values — hence the optimal
value — unchanged, and the assembler's collection loop performs no
deduplication: the flat list keeps every contributed constraint. -/
theorem redundantConstraintHarmless (p : Problem) (con : PyVal)
    (hmem : con ∈ p.constraints) :
    Problem.valueSet (Problem.mk p.maximize p.objective (p.constraints ++ [con]))
        = p.valueSet ∧
    (∀ contributed : List (List PyVal),
      (collectConstraints contributed).length = (contributed.map List.length).sum) := by
  constructor
  · ext v
    simp only [Problem.valueSet, Problem.feasible, Set.mem_setOf_eq]
    constructor
    · rintro ⟨σ, hf, rfl⟩
      exact ⟨σ, fun u hu => hf u (by simp [hu]), rfl⟩
    · rintro ⟨σ, hf, rfl⟩
      refine ⟨σ, fun u hu => ?_, rfl⟩
      rcases List.mem_append.mp hu with h | h
      · exact hf u h
      · simp only [List.mem_singleton] at h
        rw [h]
        exact hf con hmem
  · exact collect_length

/-- Witness for C7 on a Problem with one trivially satisfied constraint
duplicated. -/
theorem redundantConstraintHarmless_witness :
    Problem.valueSet (Problem.mk true (Expr.var 0 Shape.scalar)
          ([PyVal.bool true] ++ [PyVal.bool true]))
        = Problem.valueSet (Problem.mk true (Expr.var 0 Shape.scalar)
          [PyVal.bool true]) ∧
    (∀ contributed : List (List PyVal),
      (collectConstraints contributed).length = (contributed.map List.length).sum) :=
  redundantConstraintHarmless
    (Problem.mk true (Expr.var 0 Shape.scalar) [PyVal.bool true])
    (PyVal.bool true) (by simp)

/-- C8: the write-back of a successful solve leaves the Problem (its
objective, Expressions and declared Constraints) untouched; over the
builder's duplicate-free ordering each user-declared Variable's value
slot receives exactly the primal entry at the variable's unique
position, while variables outside the ordering and auxiliary
(non-user) variables keep their previous slots — auxiliary solved
values are discarded. -/
theorem solveWriteBackFrame (s : SolveState) (order userIds : List Nat)
    (primal : Nat → ℚ) (hnd : order.Nodup) :
    (writeBack s order userIds primal).prob = s.prob ∧
    (∀ i, i ∈ userIds → i ∈ order →
      (writeBack s order userIds primal).vals i = some (primal (order.indexOf i))) ∧
    (∀ i, i ∉ userIds → (writeBack s order userIds primal).vals i = s.vals i) ∧
    (∀ i, i ∉ order → (writeBack s order userIds primal).vals i = s.vals i) := by
  refine ⟨rfl, ?_, ?_, ?_⟩
  · intro i hu ho
    have h := scatterAux_mem userIds primal order hnd 0 s.vals i ho hu
    simpa [writeBack, scatter] using h
  · intro i hu
    simpa [writeBack, scatter] using
      scatterAux_not_user userIds primal order 0 s.vals i hu
  · intro i ho
    simpa [writeBack, scatter] using
      scatterAux_not_mem userIds primal order 0 s.vals i ho

/-- Witness for C8: ordering [0, 1], user variable 0, auxiliary
variable 1, primal vector sending a position to its index. -/
theorem solveWriteBackFrame_witness :
    (writeBack ⟨⟨true, Expr.var 0 Shape.scalar, []⟩, fun _ => none⟩ [0, 1] [0]
        (fun pos => (pos : ℚ))).prob = ⟨true, Expr.var 0 Shape.scalar, []⟩ ∧
    (∀ i, i ∈ ([0] : List Nat) → i ∈ ([0, 1] : List Nat) →
      (writeBack ⟨⟨true, Expr.var 0 Shape.scalar, []⟩, fun _ => none⟩ [0, 1] [0]
          (fun pos => (pos : ℚ))).vals i
        = some ((([0, 1] : List Nat).indexOf i : ℚ))) ∧
    (∀ i, i ∉ ([0] : List Nat) →
      (writeBack ⟨⟨true, Expr.var 0 Shape.scalar, []⟩, fun _ => none⟩ [0, 1] [0]
          (fun pos => (pos : ℚ))).vals i = none) ∧
    (∀ i, i ∉ ([0, 1] : List Nat) →
      (writeBack ⟨⟨true, Expr.var 0 Shape.scalar, []⟩, fun _ => none⟩ [0, 1] [0]
          (fun pos => (pos : ℚ))).vals i = none) :=
  solveWriteBackFrame ⟨⟨true, Expr.var 0 Shape.scalar, []⟩, fun _ => none⟩
    [0, 1] [0] (fun pos => (pos : ℚ)) (by decide)

/-- C9: connecting an edge appends exactly the negated flow to the
in-node's edge-flow list and exactly the flow itself to the out-node's
list, changes neither node's accumulation, the two appended
contributions cancel under every assignment, and the combined
conservation sums of the two nodes are unchanged by the connection. -/
theorem connectAppendsOppositeFlows (e : Edge) (n1 n2 : Node) (σ : Nat → ℚ)
    (hf : scalarNum (PyVal.expr e.flow) = true)
    (h1 : ∀ v ∈ n1.edge_flows, scalarNum v = true)
    (h2 : ∀ v ∈ n2.edge_flows, scalarNum v = true) :
    (e.connect n1 n2).1.edge_flows
        = n1.edge_flows ++ [PyVal.expr (Expr.neg e.flow)] ∧
    (e.connect n1 n2).2.edge_flows = n2.edge_flows ++ [PyVal.expr e.flow] ∧
    (e.connect n1 n2).1.accumulation = n1.accumulation ∧
    (e.connect n1 n2).2.accumulation = n2.accumulation ∧
    evalE σ (Expr.neg e.flow) + evalE σ e.flow = 0 ∧
    evalPy σ (pySum (e.connect n1 n2).1.edge_flows) +
        evalPy σ (pySum (e.connect n1 n2).2.edge_flows) =
      evalPy σ (pySum n1.edge_flows) + evalPy σ (pySum n2.edge_flows) := by
  have hneg : scalarNum (PyVal.expr (Expr.neg e.flow)) = true := by
    simpa [scalarNum, shapeOf] using hf
  have hl1 : ∀ v ∈ n1.edge_flows ++ [PyVal.expr (Expr.neg e.flow)],
      scalarNum v = true := by
    intro v hv
    rcases List.mem_append.mp hv with h | h
    · exact h1 v h
    · simp only [List.mem_singleton] at h
      subst h
      exact hneg
  have hl2 : ∀ v ∈ n2.edge_flows ++ [PyVal.expr e.flow], scalarNum v = true := by
    intro v hv
    rcases List.mem_append.mp hv with h | h
    · exact h2 v h
    · simp only [List.mem_singleton] at h
      subst h
      exact hf
  have hs1 := pySum_scalarNum σ _ hl1
  have hs2 := pySum_scalarNum σ _ hl2
  have hb1 := pySum_scalarNum σ n1.edge_flows h1
  have hb2 := pySum_scalarNum σ n2.edge_flows h2
  refine ⟨rfl, rfl, rfl, rfl, by simp [evalE], ?_⟩
  show evalPy σ (pySum (n1.edge_flows ++ [PyVal.expr (Expr.neg e.flow)])) +
      evalPy σ (pySum (n2.edge_flows ++ [PyVal.expr e.flow])) =
    evalPy σ (pySum n1.edge_flows) + evalPy σ (pySum n2.edge_flows)
  rw [hs1.2, hs2.2, hb1.2, hb2.2]
  simp [evalPy, evalE]
  ring

/-- Witness for C9: a unit-capacity edge connecting two fresh default
nodes. -/
theorem connectAppendsOppositeFlows_witness :
    ((Edge.make 1 0).connect (Node.make (PyVal.num 0))
        (Node.make (PyVal.num 0))).1.edge_flows
      = (Node.make (PyVal.num 0)).edge_flows
          ++ [PyVal.expr (Expr.neg (Edge.make 1 0).flow)] ∧
    ((Edge.make 1 0).connect (Node.make (PyVal.num 0))
        (Node.make (PyVal.num 0))).2.edge_flows
      = (Node.make (PyVal.num 0)).edge_flows ++ [PyVal.expr (Edge.make 1 0).flow] ∧
    ((Edge.make 1 0).connect (Node.make (PyVal.num 0))
        (Node.make (PyVal.num 0))).1.accumulation
      = (Node.make (PyVal.num 0)).accumulation ∧
    ((Edge.make 1 0).connect (Node.make (PyVal.num 0))
        (Node.make (PyVal.num 0))).2.accumulation
      = (Node.make (PyVal.num 0)).accumulation ∧
    evalE (fun _ => 7) (Expr.neg (Edge.make 1 0).flow)
        + evalE (fun _ => 7) (Edge.make 1 0).flow = 0 ∧
    evalPy (fun _ => 7) (pySum ((Edge.make 1 0).connect (Node.make (PyVal.num 0))
          (Node.make (PyVal.num 0))).1.edge_flows) +
        evalPy (fun _ => 7) (pySum ((Edge.make 1 0).connect (Node.make (PyVal.num 0))
          (Node.make (PyVal.num 0))).2.edge_flows) =
      evalPy (fun _ => 7) (pySum (Node.make (PyVal.num 0)).edge_flows) +
        evalPy (fun _ => 7) (pySum (Node.make (PyVal.num 0)).edge_flows) :=
  connectAppendsOppositeFlows (Edge.make 1 0) (Node.make (PyVal.num 0))
    (Node.make (PyVal.num 0)) (fun _ => 7) rfl
    (by simp [Node.make]) (by simp [Node.make])

/-- C10: a Node built with the default accumulation 0 and an empty
edge-flow list returns a one-element constraint list whose element is
the Python boolean True (the numeric comparison 0 == 0), not an
expression-level Constraint object. -/
theorem isolatedDefaultNodeConstraint :
    (Node.make (PyVal.num 0)).constraints = [PyVal.bool true] ∧
    ∀ c : Constr, (Node.make (PyVal.num 0)).constraints ≠ [PyVal.constr c] := by
  constructor
  · rfl
  · intro c h
    have h0 : (Node.make (PyVal.num 0)).constraints = [PyVal.bool true] := rfl
    rw [h0] at h
    simp at h

end CVX
